import Mathlib

/-!
Verification development for the jaunty revenue-forecast engine.

The Python source (model/data_loader.py, model/trainer.py, model/inference.py)
is embedded shallowly:

* calendar months are abstracted to natural-number month indices;
* money amounts and all float arithmetic are modelled over ℚ (exact);
* a completed trip is a pair (month, price); a ledger's completed-trip table
  is a `List (ℕ × ℚ)`;
* pandas DataFrames of monthly points / forecast points become lists of
  structures, kept in date order exactly as the frames are;
* numpy's globally seeded random generator is modelled explicitly: the
  generator is an opaque-to-the-program deterministic function from
  (state, mean, sigma, length) to a list of draws, and `np.random.seed k`
  replaces the ambient state by `k`.

Definitions follow the Python control flow line by line; section comments
cite the source locations.
-/

namespace Jaunty

/-! ## Generic list helpers (Prop-predicate variants of filter/takeWhile,
an index-carrying map, and lemmas used throughout). -/

def pfilter {α : Type} (p : α → Prop) [DecidablePred p] : List α → List α
  | [] => []
  | a :: t => if p a then a :: pfilter p t else pfilter p t

def ptakeWhile {α : Type} (p : α → Prop) [DecidablePred p] : List α → List α
  | [] => []
  | a :: t => if p a then a :: ptakeWhile p t else []

def pfind {α : Type} (p : α → Prop) [DecidablePred p] : List α → Option α
  | [] => none
  | a :: t => if p a then some a else pfind p t

def mapWithIdx {α β : Type} (f : ℕ → α → β) : ℕ → List α → List β
  | _, [] => []
  | i, a :: t => f i a :: mapWithIdx f (i + 1) t

/-! ## Data model.

model/data_loader.py: a monthly revenue point has columns
(date, revenue, trip_count); model/inference.py: a forecast point has
columns (date, forecast, lower, upper). -/

structure MPoint where
  date : ℕ
  revenue : ℚ
  tripCount : ℕ
deriving DecidableEq

instance : Inhabited MPoint := ⟨⟨0, 0, 0⟩⟩

structure FPoint where
  date : ℕ
  fc : ℚ
  lo : ℚ
  hi : ℚ
deriving DecidableEq

instance : Inhabited FPoint := ⟨⟨0, 0, 0, 0⟩⟩

/-! ## Monthly revenue aggregation.

DataLoader.prepare_monthly_revenue, model/data_loader.py lines 180-324.
`takeLast n l` is pandas `l.tail(n)`; `meanQ` is pandas `.mean()` over a
nonempty frame (callers below only apply it to nonempty windows, matching
the guards in the source). -/

def takeLast {α : Type} (n : ℕ) (l : List α) : List α := l.drop (l.length - n)

def meanQ (xs : List ℚ) : ℚ := xs.sum / xs.length

/-- Lines 190-193: when a forecast reference date is given, trips after it
are dropped before grouping (dates abstracted to month indices). -/
def completedInRange (trips : List (ℕ × ℚ)) (cutoff : Option ℕ) : List (ℕ × ℚ) :=
  match cutoff with
  | none => trips
  | some c => pfilter (fun t => t.1 ≤ c) trips

def minTripMonth : List (ℕ × ℚ) → ℕ
  | [] => 0
  | t :: ts => ts.foldl (fun a u => min a u.1) t.1

def maxTripMonth : List (ℕ × ℚ) → ℕ
  | [] => 0
  | t :: ts => ts.foldl (fun a u => max a u.1) t.1

def monthRevenue (trips : List (ℕ × ℚ)) (m : ℕ) : ℚ :=
  ((pfilter (fun t => t.1 = m) trips).map Prod.snd).sum

def monthTripCount (trips : List (ℕ × ℚ)) (m : ℕ) : ℕ :=
  (pfilter (fun t => t.1 = m) trips).length

def monthSpanLen (trips : List (ℕ × ℚ)) : ℕ :=
  if trips = [] then 0 else maxTripMonth trips + 1 - minTripMonth trips

/-- Lines 198-218: group completed trips by month (sum of prices, row count)
and reindex to the contiguous month range from the earliest to the latest
trip month, filling absent months with zero revenue and zero trips. -/
def aggregateMonthly (trips : List (ℕ × ℚ)) : List MPoint :=
  (List.range (monthSpanLen trips)).map (fun i =>
    { date := minTripMonth trips + i
      revenue := monthRevenue trips (minTripMonth trips + i)
      tripCount := monthTripCount trips (minTripMonth trips + i) })

/-- Line 232: `non_zero_months = monthly_revenue[monthly_revenue.trip_count > 0]`. -/
def nonZeroMonths (l : List MPoint) : List MPoint := pfilter (fun p => 0 < p.tripCount) l

/-- Line 235: `window = min(6, len(non_zero_months))`. -/
def rollingWindow (l : List MPoint) : ℕ := min 6 (nonZeroMonths l).length

/-- Line 236: mean trip count over the last `window` non-zero months. -/
def rollingAvgTrips (l : List MPoint) : ℚ :=
  meanQ ((takeLast (rollingWindow l) (nonZeroMonths l)).map (fun p => (p.tripCount : ℚ)))

/-- Line 237: mean revenue over the last `window` non-zero months. -/
def rollingAvgRevenue (l : List MPoint) : ℚ :=
  meanQ ((takeLast (rollingWindow l) (nonZeroMonths l)).map MPoint.revenue)

/-- Lines 250-254: a month is flagged incomplete when its trip count is below
half the rolling average trip count, or its revenue is below 30% of the
rolling average revenue, or its revenue is below the $1,000 floor. -/
def isIncompleteMonth (l : List MPoint) (p : MPoint) : Prop :=
  (p.tripCount : ℚ) < rollingAvgTrips l * (1/2)
    ∨ p.revenue < rollingAvgRevenue l * (3/10)
    ∨ p.revenue < 1000

instance (l : List MPoint) : DecidablePred (isIncompleteMonth l) := fun p => by
  unfold isIncompleteMonth; infer_instance

/-- Line 240-241: the window of most recent months inspected for
incompleteness, `min(exclude_incomplete_months + 2, len(monthly_revenue))`. -/
def checkWindow (excl : ℕ) (l : List MPoint) : List MPoint :=
  takeLast (min (excl + 2) l.length) l

/-- Lines 272-282: walking backward from the most recent month, the number of
consecutively flagged months (the walk stops at the first unflagged month). -/
def trailingFlaggedCount (excl : ℕ) (l : List MPoint) : ℕ :=
  (ptakeWhile (isIncompleteMonth l) (checkWindow excl l).reverse).length

def minDateOf : List MPoint → ℕ
  | [] => 0
  | p :: ps => ps.foldl (fun a q => min a q.date) p.date

/-- Lines 288-297: the earliest date among the months to exclude. -/
def baselineCutoff (excl : ℕ) (l : List MPoint) : ℕ :=
  minDateOf (takeLast (trailingFlaggedCount excl l) (checkWindow excl l))

/-- Lines 230-303: the baseline incomplete-month exclusion. When more months
than the exclusion window exist and at least one non-zero month gives a
baseline, the consecutively flagged tail of the check window is excluded by
keeping only months strictly before the earliest excluded date. -/
def baselineTrim (excl : ℕ) (l : List MPoint) : List MPoint :=
  if excl < l.length then
    if 0 < (nonZeroMonths l).length then
      if 0 < trailingFlaggedCount excl l then
        pfilter (fun p => p.date < baselineCutoff excl l) l
      else l
    else l
  else l

/-- Lines 309-322: the secondary single-month anomaly check. If the series
has at least two months and both the last and second-to-last revenues are
strictly positive and their ratio is below 20%, the last month is dropped. -/
def secondaryTrim (l : List MPoint) : List MPoint :=
  if 2 ≤ l.length then
    if 0 < (l.getD (l.length - 1) default).revenue
        ∧ 0 < (l.getD (l.length - 2) default).revenue
        ∧ (l.getD (l.length - 1) default).revenue
            / (l.getD (l.length - 2) default).revenue < 1/5
    then l.dropLast else l
  else l

def untrimmedMonthly (trips : List (ℕ × ℚ)) (cutoff : Option ℕ) : List MPoint :=
  aggregateMonthly (completedInRange trips cutoff)

/-- DataLoader.prepare_monthly_revenue (lines 180-324): aggregate, then the
baseline trim, then the secondary anomaly check, in source order. -/
def prepareMonthlyRevenue (trips : List (ℕ × ℚ)) (cutoff : Option ℕ) (excl : ℕ) : List MPoint :=
  secondaryTrim (baselineTrim excl (untrimmedMonthly trips cutoff))

/-! ## Forecast start date.

ForecastInference.generate_12_month_forecast, model/inference.py lines
389-420: one more anomalously-low-last-month check is applied to the monthly
series, then the forecast start is the month after its last date. An empty
series would make the source fall back to the current wall-clock month,
modelled as `none` here. -/

/-- Lines 396-414: drop the last month when the recent average (excluding it)
is positive and the last month is below 30% of it, or (elif) when the last
month is below the $1,000 floor. -/
def recheckTrim (l : List MPoint) : List MPoint :=
  if 2 ≤ l.length then
    if (0 < meanQ ((takeLast (min 12 (l.length - 1)) l.dropLast).map MPoint.revenue)
          ∧ (l.getD (l.length - 1) default).revenue
              < meanQ ((takeLast (min 12 (l.length - 1)) l.dropLast).map MPoint.revenue) * (3/10))
        ∨ (l.getD (l.length - 1) default).revenue < 1000
    then l.dropLast else l
  else l

def maxDateOf : List MPoint → ℕ
  | [] => 0
  | p :: ps => ps.foldl (fun a q => max a q.date) p.date

/-- Lines 389-420: the first forecast month. -/
def forecastStart (l : List MPoint) : Option ℕ :=
  if l = [] then none
  else if recheckTrim l = [] then none
  else some (maxDateOf (recheckTrim l) + 1)

/-! ## Training artifacts.

ModelTrainer.train_all, model/trainer.py lines 408-458, writes the trained
Prophet model (train_prophet, line 179), the XGBoost model plus encoders and
feature names (train_xgboost, lines 314-323), and the training metadata
(line 447).  ForecastInference.load_models (model/inference.py lines 71-98)
looks for `stage_conversion_rates.pkl` among the artifact files and keeps
`stage_conversion_rates = None` when it is absent; forecast_pipeline
(lines 269-301) then selects the hardcoded fallback rate table. -/

structure StageRatesArtifact where
  flatRates : List (String × ℚ)
  segmented : Option (List ((String × String × ℕ) × ℚ))
deriving DecidableEq

inductive RatesSource
  | segmented
  | empirical
  | hardcoded
deriving DecidableEq

/-- The artifact files written by a `train_all` run into a fresh model
directory; the flags record whether the Prophet / XGBoost sub-trainings ran
to completion (each is optional and exception-guarded, lines 428-444). -/
def trainAllSavedFiles (prophetTrained xgbTrained : Bool) : List String :=
  (if prophetTrained then ["prophet_model.pkl"] else [])
    ++ (if xgbTrained then ["xgboost_model.json", "label_encoders.pkl", "feature_names.pkl"]
        else [])
    ++ ["training_metadata.pkl"]

/-- model/inference.py lines 71-98: the rates artifact is loaded only when
its file exists in the model directory. -/
def loadedStageRates (files : List String) (onDisk : Option StageRatesArtifact) :
    Option StageRatesArtifact :=
  if "stage_conversion_rates.pkl" ∈ files then onDisk else none

/-- model/inference.py lines 292-301: the hardcoded fallback rate table. -/
def hardcodedFlatRates : List (String × ℚ) :=
  [("inquiry", 15/100), ("quote_sent", 35/100), ("booked", 9/10), ("final_payment", 98/100)]

/-- model/inference.py lines 272-301: which rate table forecast_pipeline
selects, given the loaded artifact. -/
def ratesSourceOf : Option StageRatesArtifact → RatesSource
  | none => RatesSource.hardcoded
  | some r => match r.segmented with
    | some _ => RatesSource.segmented
    | none => RatesSource.empirical

/-! ## The seeded random generator.

numpy's global generator is modelled by an explicit ambient state (a ℕ) plus
a deterministic draw function: `normalDraws state mean sigma n` is the list
of `n` draws `np.random.normal(mean, sigma, n)` produces when the global
state is `state`.  `np.random.seed(k)` replaces the ambient state by `k`
(model/inference.py lines 502 and 676 both call it with the literal 42). -/

structure NumpyRng where
  normalDraws : ℕ → ℚ → ℚ → ℕ → List ℚ
  len_normalDraws : ∀ s m sd n, (normalDraws s m sd n).length = n

def numpySeed (_ambient : ℕ) (k : ℕ) : ℕ := k

/-- np.clip for scalars. -/
def clipQ (a b x : ℚ) : ℚ := min (max x a) b

/-! ## Forecast strategies.

ForecastInference, model/inference.py. -/

inductive Method
  | prophet
  | xgboost
  | pipeline
deriving DecidableEq

/-- Lines 47-51: the ensemble weights.  The dict lookup at line 770 carries
a default of 1/len(forecasts), but every method the loop can see is a key of
the dict, so the default is unreachable and the lookup is total. -/
def ensembleWeights : Method → ℚ
  | Method.prophet => 2/5
  | Method.xgboost => 3/10
  | Method.pipeline => 3/10

def insertLeQ (x : ℚ) : List ℚ → List ℚ
  | [] => [x]
  | a :: t => if x ≤ a then x :: a :: t else a :: insertLeQ x t

def sortQ (xs : List ℚ) : List ℚ := xs.foldr insertLeQ []

/-- pandas `.median()`: middle of the sorted values, or the average of the
two middle values for an even count. -/
def medianQ (xs : List ℚ) : ℚ :=
  if xs.length = 0 then 0
  else if xs.length % 2 = 1 then (sortQ xs).getD (xs.length / 2) 0
  else ((sortQ xs).getD (xs.length / 2 - 1) 0 + (sortQ xs).getD (xs.length / 2) 0) / 2

/-- forecast_prophet, lines 187-209: clip the returned frame to ≥ 0 and cap
point forecasts at 3x the median when the median is positive. -/
def prophetClean (f : List FPoint) : List FPoint :=
  let f1 := f.map (fun p => { p with fc := max p.fc 0, lo := max p.lo 0, hi := max p.hi 0 })
  if 1 < f1.length then
    if 0 < medianQ (f1.map FPoint.fc) then
      f1.map (fun p => { p with fc := min p.fc (medianQ (f1.map FPoint.fc) * 3) })
    else f1
  else f1

def maxRevenue : List MPoint → ℚ
  | [] => 0
  | p :: ps => ps.foldl (fun a q => max a q.revenue) p.revenue

def maxFc : List FPoint → ℚ
  | [] => 0
  | p :: ps => ps.foldl (fun a q => max a q.fc) p.fc

def headFc : List FPoint → ℚ
  | [] => 0
  | p :: _ => p.fc

/-- pandas `monthly.tail(min(n, len(monthly)))['revenue'].mean()`. -/
def recentAvgN (n : ℕ) (l : List MPoint) : ℚ :=
  meanQ ((takeLast (min n l.length) l).map MPoint.revenue)

/-- Lines 480-484: dampening of a too-high Prophet start, decay factor
`0.7 + (i / len) * 0.3`. -/
def prophetDamp (recentAvg : ℚ) (n : ℕ) (i : ℕ) (p : FPoint) : FPoint :=
  { p with fc := recentAvg * (1 - ((7/10) + ((i : ℚ) / n) * (3/10)))
                   + p.fc * ((7/10) + ((i : ℚ) / n) * (3/10)) }

/-- Clipping a frame to nonnegative values, pandas
`clip(lower=0)` on all three value columns (lines 468-470 and 639-641). -/
def clipFrame (f : List FPoint) : List FPoint :=
  f.map (fun p => { p with fc := max p.fc 0, lo := max p.lo 0, hi := max p.hi 0 })

/-- Lines 473-488: when the (clipped) Prophet forecast starts more than 30%
above the recent average, dampen every month with the decay factor and
recompute the bounds as the point ×0.75 / ×1.25, clipped to ≥ 0. -/
def dampFrame (recentAvg : ℚ) (f : List FPoint) : List FPoint :=
  if recentAvg * (13/10) < headFc f then
    (mapWithIdx (fun i p => prophetDamp recentAvg f.length i p) 0 f).map
      (fun p => { p with lo := max (p.fc * (3/4)) 0, hi := max (p.fc * (5/4)) 0 })
  else f

/-- Lines 490-495 and 643-648: when the maximum point forecast exceeds the
plausibility cap, clip the points at the cap and the upper bounds at 1.5x
the cap. -/
def capFrame (maxReasonable : ℚ) (f : List FPoint) : List FPoint :=
  if maxReasonable < maxFc f then
    f.map (fun p =>
      { p with
        fc := min p.fc maxReasonable
        hi := min p.hi (maxReasonable * (3/2)) })
  else f

/-- Lines 497-509: multiply the Prophet points by the seeded draws (mean 1,
sigma cv·0.5, clipped to [0.7, 1.3]) and recompute bounds ×0.75 / ×1.25. -/
def prophetVarFrame (rng : NumpyRng) (ambient : ℕ) (cv : ℚ) (f : List FPoint) : List FPoint :=
  if 1 < f.length then
    List.zipWith (fun p v =>
      { p with
        fc := p.fc * v
        lo := max (p.fc * v * (3/4)) 0
        hi := max (p.fc * v * (5/4)) 0 }) f
      ((rng.normalDraws (numpySeed ambient 42) 1 (cv * (1/2)) f.length).map
        (clipQ (7/10) (13/10)))
  else f

/-- Lines 456-510: the in-generate post-processing of the Prophet forecast:
clip to ≥ 0, dampen a too-high start, cap at max(1.5x historical max, 2x
recent 6-month average), then blend in the seeded variance.  `histCv`
stands for the source's `hist_std / hist_mean` (a numpy float involving a
square root, passed here as a parameter). -/
def prophetBranch (rng : NumpyRng) (ambient : ℕ) (monthly : List MPoint) (histCv : ℚ)
    (f0 : List FPoint) : List FPoint :=
  if monthly = [] then f0 else
  prophetVarFrame rng ambient histCv
    (capFrame (max (maxRevenue monthly * (3/2)) (recentAvgN 6 monthly * 2))
      (dampFrame (recentAvgN 6 monthly) (clipFrame f0)))

/-- Lines 522-539: the XGBoost strategy series, the pipeline total spread
evenly over the 12 months following the forecast start, band ±30%. -/
def xgbSeries (lastDate : ℕ) (total : ℚ) : List FPoint :=
  (List.range 12).map (fun i =>
    { date := lastDate + i
      fc := total / 12
      lo := total / 12 * (7/10)
      hi := total / 12 * (13/10) })

/-- Lines 560-573: the monthly value of the stage-weighted pipeline strategy:
the recent (up to 12-month) historical average when the pipeline total is
zero and history exists, otherwise the total spread over 12 months. -/
def pipelineMonthlyValue (total : ℚ) (monthly : List MPoint) : ℚ :=
  if total = 0 ∧ monthly ≠ [] then recentAvgN 12 monthly
  else if 0 < total then total / 12 else 0

/-- Lines 575-585: the pipeline strategy series, band ±20%. -/
def pipelineSeries (lastDate : ℕ) (m : ℚ) : List FPoint :=
  (List.range 12).map (fun i =>
    { date := lastDate + i, fc := m, lo := m * (4/5), hi := m * (6/5) })

/-! ## The ensemble combiner.

ForecastInference._combine_forecasts, model/inference.py lines 738-799. -/

/-- Insertion into a sorted duplicate-free list of month indices: the model
of accumulating `all_dates` as a set and sorting it (lines 753-758). -/
def insertMonth (d : ℕ) : List ℕ → List ℕ
  | [] => [d]
  | a :: t => if d < a then d :: a :: t else if d = a then a :: t else a :: insertMonth d t

def unionDates (fs : List (Method × List FPoint)) : List ℕ :=
  ((fs.map (fun f => f.2.map FPoint.date)).flatten).foldr insertMonth []

/-- The value a strategy frame contributes for month `d` after the left-merge
on date (lines 776-786): its row's value when the month is present, else the
`fillna(0)` zero.  The strategy frames built by generate_12_month_forecast
carry at most one row per month, so the merge is a plain lookup. -/
def valAt (f : List FPoint) (d : ℕ) (sel : FPoint → ℚ) : ℚ :=
  match pfind (fun p => p.date = d) f with
  | some p => sel p
  | none => 0

/-- Line 767-788: the run-global total of the weights of the present
strategies. -/
def totalWeight (fs : List (Method × List FPoint)) : ℚ :=
  (fs.map (fun f => ensembleWeights f.1)).sum

/-- Lines 790-794: the combined values are divided by the weight total only
when it is positive and differs from 1 by more than 0.01. -/
def combineDenom (fs : List (Method × List FPoint)) : ℚ :=
  if 0 < totalWeight fs ∧ 1/100 < |totalWeight fs - 1| then totalWeight fs else 1

def combineForecasts (fs : List (Method × List FPoint)) : List FPoint :=
  (unionDates fs).map (fun d =>
    { date := d
      fc := (fs.map (fun f => ensembleWeights f.1 * valAt f.2 d FPoint.fc)).sum / combineDenom fs
      lo := (fs.map (fun f => ensembleWeights f.1 * valAt f.2 d FPoint.lo)).sum / combineDenom fs
      hi := (fs.map (fun f => ensembleWeights f.1 * valAt f.2 d FPoint.hi)).sum
              / combineDenom fs })

/-- Modelled from the spec (§4.6), for comparison with `combineForecasts`:
for each month of the union, the weighted sum over the strategies that
produced a value for that month, divided by the sum of the weights of
exactly those strategies (a per-month normalizer). -/
def specCombinePerMonth (fs : List (Method × List FPoint)) : List FPoint :=
  (unionDates fs).map (fun d =>
    let cover := pfilter (fun f => (pfind (fun p => p.date = d) f.2).isSome = true) fs
    { date := d
      fc := (cover.map (fun f => ensembleWeights f.1 * valAt f.2 d FPoint.fc)).sum
              / (cover.map (fun f => ensembleWeights f.1)).sum
      lo := (cover.map (fun f => ensembleWeights f.1 * valAt f.2 d FPoint.lo)).sum
              / (cover.map (fun f => ensembleWeights f.1)).sum
      hi := (cover.map (fun f => ensembleWeights f.1 * valAt f.2 d FPoint.hi)).sum
              / (cover.map (fun f => ensembleWeights f.1)).sum })

/-! ## Final sanity pass and transition smoothing.

generate_12_month_forecast, model/inference.py lines 613-728. -/

/-- pandas `.ewm(alpha=0.7, adjust=False).mean()`: y0 = x0,
y_i = 0.3 * y_(i-1) + 0.7 * x_i. -/
def ewm07 : ℚ → List ℚ → List ℚ
  | _, [] => []
  | prev, x :: xs => ((3/10) * prev + (7/10) * x) :: ewm07 ((3/10) * prev + (7/10) * x) xs

def ewmAdjFalse : List ℚ → List ℚ
  | [] => []
  | x :: xs => x :: ewm07 x xs

/-- Lines 619-633: the recent (6-month window) average used for the cap,
with the anomalously-low-last-month exclusion. -/
def recentAvgFor (monthly : List MPoint) : ℚ :=
  let r := (takeLast (min 6 monthly.length) monthly).map MPoint.revenue
  if 2 ≤ r.length then
    if r.getD (r.length - 1) 0 < meanQ r.dropLast * (3/10) then meanQ r.dropLast else meanQ r
  else meanQ r

def lastRevenue (l : List MPoint) : ℚ := (l.getD (l.length - 1) default).revenue

/-- Lines 714-716: the blend weight of the forecast value in smoothing month
`i` (0-based): `0.2 + (i / 3) * 0.6` for the first three months, 1 after. -/
def blendWeight (i : ℕ) : ℚ := if i < 3 then (1/5) + ((i : ℚ) / 3) * (3/5) else 1

/-- Lines 710-726: one smoothed point; the confidence bounds of every month
are recomputed as the point times 0.7 / 1.3, clipped to ≥ 0. -/
def smoothPoint (lastM : ℚ) (i : ℕ) (p : FPoint) : FPoint :=
  { date := p.date
    fc := lastM * (1 - blendWeight i) + p.fc * blendWeight i
    lo := max ((lastM * (1 - blendWeight i) + p.fc * blendWeight i) * (7/10)) 0
    hi := max ((lastM * (1 - blendWeight i) + p.fc * blendWeight i) * (13/10)) 0 }

/-- Lines 688-728: the transition-smoothing pass.  The jump is
`first_forecast / last_month` when the last historical month is positive and
+infinity otherwise; smoothing fires when it exceeds 1.3. -/
def transitionSmooth (lastM : ℚ) (e : List FPoint) : List FPoint :=
  if e = [] then e
  else if (0 < lastM ∧ lastM * (13/10) < headFc e) ∨ lastM ≤ 0 then
    mapWithIdx (smoothPoint lastM) 0 e
  else e

/-- Lines 651-686: exponentially smooth the points (alpha 0.7, adjust
false), multiply by 1 + the seeded draws (mean 0, sigma cv·0.4, clipped to
±0.25), clip to ≥ 0, and recompute the bounds as the point times
(1 - cv) / (1 + cv), the lower one clipped to ≥ 0. -/
def ensembleVarFrame (rng : NumpyRng) (ambient : ℕ) (histCv : ℚ) (f : List FPoint) :
    List FPoint :=
  if 1 < f.length then
    List.zipWith (fun p v =>
      { p with
        fc := v
        lo := max (v * (1 - histCv)) 0
        hi := v * (1 + histCv) }) f
      (List.zipWith (fun b v => max (b * (1 + v)) 0) (ewmAdjFalse (f.map FPoint.fc))
        ((rng.normalDraws (numpySeed ambient 42) 0 (histCv * (2/5)) f.length).map
          (clipQ (-(1/4)) (1/4))))
  else f

/-- Lines 613-728: the final sanity pass over the combined series: clip to
≥ 0, cap at max(1.5x historical max, 2x recent average), blend in the
seeded variance (`histCv` a parameter for the same reason as in
`prophetBranch`), then the transition smoothing.  Skipped entirely when no
historical months exist. -/
def postProcessEnsemble (rng : NumpyRng) (ambient : ℕ) (monthly : List MPoint) (histCv : ℚ)
    (e0 : List FPoint) : List FPoint :=
  if monthly = [] then e0 else
  transitionSmooth (lastRevenue monthly)
    (ensembleVarFrame rng ambient histCv
      (capFrame (max (maxRevenue monthly * (3/2)) (recentAvgFor monthly * 2))
        (clipFrame e0)))

/-! ## The 12-month ensemble forecast.

generate_12_month_forecast, model/inference.py lines 359-736.  External
model outcomes are parameters: `prophetRaw` is the frame forecast_prophet
returned (`none` when the Prophet model is absent, failed, or not loaded),
`xgbOut` the XGBoost pipeline total (`none` when absent or failed), and
`pipeOut` the stage-weighted pipeline total (`none` only when
forecast_pipeline raised).  `nowMonth` models `pd.Timestamp.now()` for the
no-history fallback. -/

def runStartDate (nowMonth : ℕ) (monthly0 : List MPoint) : ℕ :=
  if recheckTrim monthly0 = [] then nowMonth else maxDateOf (recheckTrim monthly0) + 1

/-- Lines 451-589: the strategy frames appended to `forecasts`, in source
order: the Prophet frame when the model is present and its (cleaned) frame
is nonempty, the XGBoost 12-month series when its total is positive, and
the pipeline 12-month series whenever forecast_pipeline did not raise. -/
def gatherParts (rng : NumpyRng) (ambient lastDate : ℕ) (monthly : List MPoint)
    (prophetRaw : Option (List FPoint)) (xgbOut pipeOut : Option ℚ)
    (histCvFull : ℚ) : List (Method × List FPoint) :=
  (match prophetRaw with
   | some f0 =>
       if prophetClean f0 = [] then []
       else [(Method.prophet, prophetBranch rng ambient monthly histCvFull (prophetClean f0))]
   | none => []) ++
  (match xgbOut with
   | some t => if 0 < t then [(Method.xgboost, xgbSeries lastDate t)] else []
   | none => []) ++
  (match pipeOut with
   | some t => [(Method.pipeline, pipelineSeries lastDate (pipelineMonthlyValue t monthly))]
   | none => [])

def generate12 (rng : NumpyRng) (ambient nowMonth : ℕ) (monthly0 : List MPoint)
    (prophetRaw : Option (List FPoint)) (xgbOut pipeOut : Option ℚ)
    (histCvFull histCvRecent : ℚ) : Except String (List FPoint) :=
  let monthly := recheckTrim monthly0
  let fs := gatherParts rng ambient (runStartDate nowMonth monthly0) monthly
    prophetRaw xgbOut pipeOut histCvFull
  if fs = [] then Except.error "NoForecastAvailable: no models produced output"
  else Except.ok (postProcessEnsemble rng ambient monthly histCvRecent (combineForecasts fs))

/-- The 12 consecutive months from a start month. -/
def windowDates (start : ℕ) : List ℕ := (List.range 12).map (fun i => start + i)

/-! ## Concrete inputs used by the concrete theorems below. -/

/-- A combined series of 12 months at $20 with bounds [16, 24]. -/
def exSmooth : List FPoint := (List.range 12).map (fun i => ⟨i, 20, 16, 24⟩)

/-- A combined series of 12 months at $30,000. -/
def exJump : List FPoint := (List.range 12).map (fun i => ⟨i, 30000, 21000, 39000⟩)

/-- The spec's §8 example ledger: eleven months of one $100,000 trip followed
by one month with a single $5,000 trip. -/
def exC8Trips : List (ℕ × ℚ) :=
  [(0, 100000), (1, 100000), (2, 100000), (3, 100000), (4, 100000), (5, 100000),
   (6, 100000), (7, 100000), (8, 100000), (9, 100000), (10, 100000), (11, 5000)]

/-- The expected trimmed series for `exC8Trips`: the eleven $100,000 months. -/
def exC8Trimmed : List MPoint := (List.range 11).map (fun i => ⟨i, 100000, 1⟩)

/-- A concrete generator: `normalDraws` returns the mean for every draw. -/
def constRng : NumpyRng :=
  ⟨fun _ m _ n => List.replicate n m, fun _ m _ n => List.length_replicate n m⟩

/-- Two trusted historical months of $100,000. -/
def exC6Monthly : List MPoint := [⟨0, 100000, 10⟩, ⟨1, 100000, 10⟩]

/-- A Prophet frame of 12 months starting one month after the forecast start
date the trimmed history yields (start 2, Prophet months 3..14). -/
def exC6Prophet : List FPoint := (List.range 12).map (fun i => ⟨3 + i, 100000, 100000, 100000⟩)

/-- Three strategy frames for the combiner: prophet covers only month 1,
xgboost and pipeline cover only month 0, every weight present. -/
def exC3 : List (Method × List FPoint) :=
  [(Method.prophet, [⟨1, 100, 100, 100⟩]),
   (Method.xgboost, [⟨0, 100, 100, 100⟩]),
   (Method.pipeline, [⟨0, 100, 100, 100⟩])]

/-- A two-strategy full-coverage input for the amended combiner theorem. -/
def exC3Full : List (Method × List FPoint) :=
  [(Method.prophet, [⟨0, 10, 10, 10⟩]), (Method.pipeline, [⟨0, 20, 20, 20⟩])]

/-! ## Generic lemmas about the list helpers. -/

theorem pfilter_sublist {α : Type} (p : α → Prop) [DecidablePred p] :
    ∀ l : List α, (pfilter p l).Sublist l := by
  intro l
  induction l with
  | nil => exact List.Sublist.refl []
  | cons a t ih =>
      by_cases h : p a
      · simpa [pfilter, h] using ih.cons₂ a
      · simpa [pfilter, h] using ih.cons a

theorem mem_pfilter {α : Type} (p : α → Prop) [DecidablePred p] :
    ∀ (l : List α) (a : α), a ∈ pfilter p l ↔ a ∈ l ∧ p a := by
  intro l a
  induction l with
  | nil => simp [pfilter]
  | cons b t ih =>
      by_cases h : p b
      · by_cases hab : a = b
        · subst hab; simp [pfilter, h]
        · simp [pfilter, h, hab, ih]
      · constructor
        · intro hm
          have := (ih).mp (by simpa [pfilter, h] using hm)
          exact ⟨List.mem_cons_of_mem b this.1, this.2⟩
        · rintro ⟨hm, hp⟩
          rcases List.mem_cons.mp hm with rfl | hm'
          · exact absurd hp h
          · simpa [pfilter, h] using ih.mpr ⟨hm', hp⟩

theorem pfilter_eq_nil {α : Type} (p : α → Prop) [DecidablePred p]
    (l : List α) (h : ∀ a ∈ l, ¬ p a) : pfilter p l = [] := by
  induction l with
  | nil => rfl
  | cons a t ih =>
      have ha := h a (List.mem_cons_self a t)
      simpa [pfilter, ha] using ih (fun b hb => h b (List.mem_cons_of_mem a hb))

theorem pfilter_eq_self {α : Type} (p : α → Prop) [DecidablePred p]
    (l : List α) (h : ∀ a ∈ l, p a) : pfilter p l = l := by
  induction l with
  | nil => rfl
  | cons a t ih =>
      have ha := h a (List.mem_cons_self a t)
      simpa [pfilter, ha] using ih (fun b hb => h b (List.mem_cons_of_mem a hb))

theorem ptakeWhile_eq_take {α : Type} (p : α → Prop) [DecidablePred p] :
    ∀ l : List α, ∃ k, ptakeWhile p l = l.take k := by
  intro l
  induction l with
  | nil => exact ⟨0, rfl⟩
  | cons a t ih =>
      by_cases h : p a
      · obtain ⟨k, hk⟩ := ih
        exact ⟨k + 1, by simp [ptakeWhile, h, hk]⟩
      · exact ⟨0, by simp [ptakeWhile, h]⟩

theorem length_mapWithIdx {α β : Type} (f : ℕ → α → β) :
    ∀ (i : ℕ) (l : List α), (mapWithIdx f i l).length = l.length := by
  intro i l
  induction l generalizing i with
  | nil => rfl
  | cons a t ih => simp [mapWithIdx, ih]

theorem get_mapWithIdx {α β : Type} (f : ℕ → α → β) :
    ∀ (i : ℕ) (l : List α) (j : ℕ) (h : j < l.length)
      (h2 : j < (mapWithIdx f i l).length),
      (mapWithIdx f i l).get ⟨j, h2⟩ = f (i + j) (l.get ⟨j, h⟩) := by
  intro i l
  induction l generalizing i with
  | nil => intro j h _; exact absurd h (by simp)
  | cons a t ih =>
      intro j h h2
      cases j with
      | zero => rfl
      | succ j' =>
          have h' : j' < t.length := Nat.lt_of_succ_lt_succ h
          have h2' : j' < (mapWithIdx f (i + 1) t).length := by
            rw [length_mapWithIdx]; exact h'
          have hrec := ih (i + 1) j' h' h2'
          have harith : i + 1 + j' = i + (j' + 1) := by omega
          calc (mapWithIdx f i (a :: t)).get ⟨j' + 1, h2⟩
              = (mapWithIdx f (i + 1) t).get ⟨j', h2'⟩ := rfl
            _ = f (i + 1 + j') (t.get ⟨j', h'⟩) := hrec
            _ = f (i + (j' + 1)) ((a :: t).get ⟨j' + 1, h⟩) := by rw [harith]; rfl

theorem getD_mapWithIdx {α β : Type} [Inhabited α] [Inhabited β] (f : ℕ → α → β) :
    ∀ (i : ℕ) (l : List α) (j : ℕ), j < l.length →
      (mapWithIdx f i l).getD j default = f (i + j) (l.getD j default) := by
  intro i l
  induction l generalizing i with
  | nil => intro j hj; exact absurd hj (by simp)
  | cons a t ih =>
      intro j hj
      cases j with
      | zero => rfl
      | succ j' =>
          have h' : j' < t.length := Nat.lt_of_succ_lt_succ hj
          have harith : i + 1 + j' = i + (j' + 1) := by omega
          calc (mapWithIdx f i (a :: t)).getD (j' + 1) default
              = (mapWithIdx f (i + 1) t).getD j' default := rfl
            _ = f (i + 1 + j') (t.getD j' default) := ih (i + 1) j' h'
            _ = f (i + (j' + 1)) ((a :: t).getD (j' + 1) default) := by rw [harith]; rfl

theorem transitionSmooth_fires (lastM : ℚ) (e : List FPoint) (hne : e ≠ [])
    (h : (0 < lastM ∧ lastM * (13/10) < headFc e) ∨ lastM ≤ 0) :
    transitionSmooth lastM e = mapWithIdx (smoothPoint lastM) 0 e := by
  unfold transitionSmooth
  rw [if_neg hne, if_pos h]

/-! ## Claim theorems. -/

/-- C1: the claim says training computes the stage conversion-rate table and
persists it so inference loads empirical rates.  In the source,
ModelTrainer.train_all writes only the Prophet model, the XGBoost artifacts
and the training metadata: `stage_conversion_rates.pkl` is never among the
files a training run produces, so a subsequent inference run loads no rates
artifact and forecast_pipeline falls back to the hardcoded table — for every
combination of sub-trainings succeeding and whatever a rates artifact would
have contained. -/
theorem c1_training_never_persists_conversion_rates
    (prophetTrained xgbTrained : Bool) (onDisk : Option StageRatesArtifact) :
    "stage_conversion_rates.pkl" ∉ trainAllSavedFiles prophetTrained xgbTrained
    ∧ ratesSourceOf (loadedStageRates (trainAllSavedFiles prophetTrained xgbTrained) onDisk)
        = RatesSource.hardcoded := by
  cases prophetTrained <;> cases xgbTrained <;>
    refine ⟨?_, ?_⟩ <;>
      simp [trainAllSavedFiles, loadedStageRates, ratesSourceOf, String.ext_iff]

/-- C10: the secondary single-month anomaly check (data_loader.py lines
309-322) removes the most recent month only when the series has at least two
months and both the last and second-to-last revenues are strictly positive;
when either revenue is zero or fewer than two months exist it never removes
anything. -/
theorem c10_secondary_check_requires_two_positive_revenues (l : List MPoint) :
    (secondaryTrim l ≠ l →
      2 ≤ l.length ∧ 0 < (l.getD (l.length - 1) default).revenue
        ∧ 0 < (l.getD (l.length - 2) default).revenue)
    ∧ (l.length < 2 ∨ (l.getD (l.length - 1) default).revenue = 0
        ∨ (l.getD (l.length - 2) default).revenue = 0 → secondaryTrim l = l) := by
  unfold secondaryTrim
  split_ifs with h2 hc
  · refine ⟨fun _ => ⟨h2, hc.1, hc.2.1⟩, ?_⟩
    rintro (h | h | h)
    · omega
    · rw [h] at hc; exact absurd hc.1 (lt_irrefl 0)
    · rw [h] at hc; exact absurd hc.2.1 (lt_irrefl 0)
  · exact ⟨fun h => absurd rfl h, fun _ => rfl⟩
  · exact ⟨fun h => absurd rfl h, fun _ => rfl⟩

theorem c10_secondary_check_witness :
    secondaryTrim [(⟨0, 0, 0⟩ : MPoint)] = [⟨0, 0, 0⟩] :=
  (c10_secondary_check_requires_two_positive_revenues [⟨0, 0, 0⟩]).2
    (Or.inl (by norm_num))

/-- C9: determinism.  The only nondeterminism in a forecast run is numpy's
global generator state, and both variance-injection sites
(model/inference.py lines 502 and 676) reset it with the literal seed 42
before drawing.  Hence two runs over identical inputs — whatever the
ambient generator states the runs start from — produce identical forecast
series. -/
theorem c9_fixed_seed_determinism
    (rng : NumpyRng) (ambient1 ambient2 nowMonth : ℕ) (monthly0 : List MPoint)
    (prophetRaw : Option (List FPoint)) (xgbOut pipeOut : Option ℚ)
    (histCvFull histCvRecent : ℚ) :
    generate12 rng ambient1 nowMonth monthly0 prophetRaw xgbOut pipeOut
        histCvFull histCvRecent
      = generate12 rng ambient2 nowMonth monthly0 prophetRaw xgbOut pipeOut
          histCvFull histCvRecent := rfl

/-- C4 counterexample: with the last historical month at $10 and a combined
forecast of $20 every month (jump ratio 2.0 > 1.3), the smoothed third
forecast month is $16 = 0.4·10 + 0.6·20, not the original $20 the claim's
"blend weight reaching 100% by month 3" requires: the weight in month 3 is
60%, not 100%. -/
theorem c4_counterexample_month3_weight :
    (10 : ℚ) * (13/10) < headFc exSmooth
    ∧ ((transitionSmooth 10 exSmooth).getD 2 default).fc = 16
    ∧ (exSmooth.getD 2 default).fc = 20
    ∧ (16 : ℚ) ≠ 20 := by
  have hne : exSmooth ≠ [] := by simp [exSmooth]
  have hfc : headFc exSmooth = 20 := by norm_num [exSmooth, List.range_succ, headFc]
  have hfire := transitionSmooth_fires 10 exSmooth hne
    (Or.inl ⟨by norm_num, by rw [hfc]; norm_num⟩)
  rw [hfire, hfc]
  norm_num [exSmooth, mapWithIdx, smoothPoint, blendWeight, List.range_succ]

/-- C4 (amended): when the last trusted historical month is positive, the
transition pass fires exactly when the first forecast month exceeds 1.3
times it; it then replaces the point forecast of each of the first three
months by the blend `last·(1-w) + forecast·w` with forecast weight
`w = 0.2 + (i/3)·0.6` (20%, 40%, 60% for months 1-3, reaching 100% only
from month 4 on), and leaves the point forecasts of months 4-12 unchanged
(every month's bounds are recomputed as the point ×0.7 / ×1.3). -/
theorem c4_amended_transition_blend (lastM : ℚ) (e : List FPoint) (hpos : 0 < lastM) :
    (headFc e ≤ lastM * (13/10) → transitionSmooth lastM e = e)
    ∧ (lastM * (13/10) < headFc e →
        (transitionSmooth lastM e).length = e.length
        ∧ (∀ i, i < e.length → i < 3 →
            ((transitionSmooth lastM e).getD i default).fc
              = lastM * (1 - ((1/5) + ((i : ℚ) / 3) * (3/5)))
                + (e.getD i default).fc * ((1/5) + ((i : ℚ) / 3) * (3/5)))
        ∧ (∀ i, i < e.length → 3 ≤ i →
            ((transitionSmooth lastM e).getD i default).fc = (e.getD i default).fc)) := by
  constructor
  · intro hle
    unfold transitionSmooth
    split_ifs with he htr
    · rfl
    · rcases htr with ⟨_, hj⟩ | hneg
      · exact absurd (lt_of_le_of_lt hle hj) (lt_irrefl _)
      · exact absurd hpos (not_lt.mpr hneg)
    · rfl
  · intro hjump
    have hne : e ≠ [] := by
      intro h
      rw [h] at hjump
      simp only [headFc] at hjump
      nlinarith
    have hts := transitionSmooth_fires lastM e hne (Or.inl ⟨hpos, hjump⟩)
    refine ⟨by rw [hts]; exact length_mapWithIdx _ 0 e, ?_, ?_⟩
    · intro i h hi3
      rw [hts, getD_mapWithIdx (smoothPoint lastM) 0 e i h]
      have h03 : 0 + i < 3 := by omega
      simp only [smoothPoint, blendWeight, if_pos h03]
      norm_num
    · intro i h hi3
      rw [hts, getD_mapWithIdx (smoothPoint lastM) 0 e i h]
      have h03 : ¬ (0 + i < 3) := by omega
      simp only [smoothPoint, blendWeight, if_neg h03]
      ring

theorem c4_amended_transition_blend_witness :
    transitionSmooth 10 [(⟨0, 5, 4, 6⟩ : FPoint)] = [⟨0, 5, 4, 6⟩] :=
  (c4_amended_transition_blend 10 [⟨0, 5, 4, 6⟩] (by norm_num)).1
    (by norm_num [headFc])

/-- C5 counterexample: last historical month $10,000, combined first
forecast month $30,000 (pre-smoothing ratio 3.0 > 1.3).  After smoothing the
first month is $14,000, a ratio of 1.4, which exceeds 1.3 even with a 0.01
tolerance: the pass does not guarantee a post-smoothing ratio of at most
1.3. -/
theorem c5_counterexample_ratio_not_bounded :
    (10000 : ℚ) * (13/10) < headFc exJump
    ∧ ((transitionSmooth 10000 exJump).getD 0 default).fc = 14000
    ∧ ¬ (((transitionSmooth 10000 exJump).getD 0 default).fc
          ≤ (13/10 + 1/100) * 10000) := by
  have hne : exJump ≠ [] := by simp [exJump]
  have hfc : headFc exJump = 30000 := by norm_num [exJump, List.range_succ, headFc]
  have hfire := transitionSmooth_fires 10000 exJump hne
    (Or.inl ⟨by norm_num, by rw [hfc]; norm_num⟩)
  rw [hfire, hfc]
  norm_num [exJump, mapWithIdx, smoothPoint, blendWeight, List.range_succ]

/-- C5 (amended): when the pass fires (positive last month, ratio > 1.3),
the smoothed first month equals 0.8·last + 0.2·first, so the post-smoothing
ratio is 0.8 + 0.2·(pre-smoothing ratio).  This is strictly below the
pre-smoothing first month, and is at most 1.3 exactly when the pre-smoothing
ratio is at most 2.5; beyond that the post-smoothing ratio still exceeds
1.3. -/
theorem c5_amended_smoothed_first_month (lastM : ℚ) (e : List FPoint)
    (hpos : 0 < lastM) (hjump : lastM * (13/10) < headFc e) (hne : e ≠ []) :
    headFc (transitionSmooth lastM e) = lastM * (4/5) + headFc e * (1/5)
    ∧ headFc (transitionSmooth lastM e) < headFc e
    ∧ (headFc e ≤ lastM * (5/2) →
        headFc (transitionSmooth lastM e) ≤ lastM * (13/10)) := by
  have hts := transitionSmooth_fires lastM e hne (Or.inl ⟨hpos, hjump⟩)
  obtain ⟨p, t, rfl⟩ : ∃ p t, e = p :: t := by
    cases e with
    | nil => exact absurd rfl hne
    | cons p t => exact ⟨p, t, rfl⟩
  have hhead : headFc (transitionSmooth lastM (p :: t))
      = lastM * (1 - blendWeight 0) + p.fc * blendWeight 0 := by
    rw [hts]; rfl
  have hbw : blendWeight 0 = 1/5 := by norm_num [blendWeight]
  have hfc : headFc (p :: t) = p.fc := rfl
  rw [hhead, hbw, hfc]
  have hj : lastM * (13/10) < p.fc := by rw [← hfc]; exact hjump
  refine ⟨by ring, by nlinarith, fun hle => by nlinarith⟩

theorem c5_amended_smoothed_first_month_witness :
    headFc (transitionSmooth 10 [(⟨0, 20, 0, 0⟩ : FPoint)]) = 10 * (4/5) + 20 * (1/5) :=
  (c5_amended_smoothed_first_month 10 [⟨0, 20, 0, 0⟩] (by norm_num)
    (by norm_num [headFc]) (by norm_num)).1

theorem length_prophetClean (f : List FPoint) : (prophetClean f).length = f.length := by
  simp only [prophetClean]
  split_ifs <;> simp

theorem prophetClean_eq_nil_iff (f : List FPoint) : prophetClean f = [] ↔ f = [] := by
  constructor
  · intro h
    have hl := length_prophetClean f
    rw [h] at hl
    exact List.length_eq_zero.mp hl.symm
  · intro h; subst h; rfl

/-- C2: generate_12_month_forecast raises the no-forecast-available error
exactly when no strategy contributed a frame to the ensemble: the Prophet
model absent/failed/returned an empty frame, AND the XGBoost pipeline total
absent/failed or not positive, AND the stage-weighted pipeline strategy
raised.  Whenever at least one strategy produced output, the run returns an
ensemble series instead (note the pipeline strategy produces a 12-month
series whenever it does not raise, even from a zero total). -/
theorem c2_error_iff_no_strategy_output
    (rng : NumpyRng) (ambient nowMonth : ℕ) (monthly0 : List MPoint)
    (prophetRaw : Option (List FPoint)) (xgbOut pipeOut : Option ℚ)
    (histCvFull histCvRecent : ℚ) :
    (generate12 rng ambient nowMonth monthly0 prophetRaw xgbOut pipeOut
        histCvFull histCvRecent).toOption = none
      ↔ (prophetRaw.getD [] = [] ∧ xgbOut.getD 0 ≤ 0 ∧ pipeOut = none) := by
  cases prophetRaw with
  | none =>
    cases xgbOut with
    | none =>
      cases pipeOut with
      | none => simp [generate12, gatherParts, Except.toOption]
      | some tp => simp [generate12, gatherParts, Except.toOption]
    | some tx =>
      rcases lt_or_le 0 tx with hx | hx
      · cases pipeOut with
        | none => simp [generate12, gatherParts, Except.toOption, hx, hx.not_le]
        | some tp => simp [generate12, gatherParts, Except.toOption, hx, hx.not_le]
      · cases pipeOut with
        | none => simp [generate12, gatherParts, Except.toOption, not_lt.mpr hx, hx]
        | some tp => simp [generate12, gatherParts, Except.toOption, not_lt.mpr hx, hx]
  | some f0 =>
    by_cases hf : f0 = []
    · subst hf
      cases xgbOut with
      | none =>
        cases pipeOut with
        | none => simp [generate12, gatherParts, Except.toOption, prophetClean]
        | some tp => simp [generate12, gatherParts, Except.toOption, prophetClean]
      | some tx =>
        rcases lt_or_le 0 tx with hx | hx
        · cases pipeOut with
          | none => simp [generate12, gatherParts, Except.toOption, prophetClean, hx, hx.not_le]
          | some tp => simp [generate12, gatherParts, Except.toOption, prophetClean, hx, hx.not_le]
        · cases pipeOut with
          | none => simp [generate12, gatherParts, Except.toOption, prophetClean, not_lt.mpr hx, hx]
          | some tp => simp [generate12, gatherParts, Except.toOption, prophetClean, not_lt.mpr hx, hx]
    · have hcl : ¬ prophetClean f0 = [] := fun h => hf ((prophetClean_eq_nil_iff f0).mp h)
      cases xgbOut with
      | none =>
        cases pipeOut with
        | none => simp [generate12, gatherParts, Except.toOption, hcl, hf]
        | some tp => simp [generate12, gatherParts, Except.toOption, hcl, hf]
      | some tx =>
        cases pipeOut with
        | none => simp [generate12, gatherParts, Except.toOption, hcl, hf]
        | some tp => simp [generate12, gatherParts, Except.toOption, hcl, hf]

/-- C8: on the spec's §8 example (eleven months with one $100,000 trip, then
a month with one $5,000 trip, default exclusion window 2), the incomplete
month logic excludes exactly the last month — its revenue $5,000 is below
30% of the $84,166.67 rolling six-month average (and the secondary check
then leaves the series alone) — so the trimmed series is the eleven
$100,000 months and the forecast start date is month 11, the month after
the 11th point. -/
theorem c8_spec_example_last_month_excluded :
    prepareMonthlyRevenue exC8Trips none 2 = exC8Trimmed
    ∧ forecastStart (prepareMonthlyRevenue exC8Trips none 2) = some 11 := by
  have hprep : prepareMonthlyRevenue exC8Trips none 2 = exC8Trimmed := by
    norm_num [prepareMonthlyRevenue, untrimmedMonthly, completedInRange, aggregateMonthly,
      monthSpanLen, minTripMonth, maxTripMonth, monthRevenue, monthTripCount, pfilter,
      baselineTrim, nonZeroMonths, trailingFlaggedCount, checkWindow, takeLast, ptakeWhile,
      isIncompleteMonth, rollingAvgTrips, rollingAvgRevenue, rollingWindow, meanQ,
      baselineCutoff, minDateOf, secondaryTrim, exC8Trips, exC8Trimmed, List.range_succ,
      List.cons_ne_nil]
  refine ⟨hprep, ?_⟩
  rw [hprep]
  norm_num [forecastStart, recheckTrim, maxDateOf, meanQ, takeLast, exC8Trimmed,
    List.range_succ, List.cons_ne_nil]

/-- C3 counterexample: three strategies are present (weight total 1.0, so
the combiner divides by nothing), but month 1 is covered only by the
prophet strategy with value 100.  The combiner yields 0.4·100 = 40 for that
month, while the claimed per-month normalization (weighted sum over covering
strategies divided by the sum of exactly those strategies' weights) yields
100: a month covered by a subset of the present strategies IS underweighted. -/
theorem c3_counterexample_global_normalizer :
    ((combineForecasts exC3).getD 1 default).fc = 40
    ∧ ((specCombinePerMonth exC3).getD 1 default).fc = 100
    ∧ (40 : ℚ) ≠ 100 := by
  norm_num [combineForecasts, specCombinePerMonth, exC3, unionDates, insertMonth, valAt,
    pfind, pfilter, totalWeight, combineDenom, ensembleWeights, List.cons_ne_nil]

/-- C3 (amended): the combiner's normalizer is run-global, not per-month:
each month's value is the weighted sum over ALL present strategies (a
missing month contributing zero) divided by the total weight of the present
strategies — and even that division happens only when the total is positive
and differs from 1 by more than 0.01.  Consequently the claimed per-month
normalization holds exactly for months covered by every present strategy:
under full coverage (and a weight total that is 1 or differs from 1 by more
than 0.01, as every subset of the configured weights does) the combiner
coincides with the per-month rule, and the counterexample shows it diverges
as soon as some month lacks a strategy. -/
theorem c3_amended_combiner_formula
    (fs : List (Method × List FPoint))
    (hw : totalWeight fs = 1 ∨ (0 < totalWeight fs ∧ 1/100 < |totalWeight fs - 1|))
    (hcov : ∀ f ∈ fs, ∀ d ∈ unionDates fs, (pfind (fun p => p.date = d) f.2).isSome = true) :
    combineForecasts fs = specCombinePerMonth fs := by
  have hden : combineDenom fs = totalWeight fs := by
    rcases hw with h1 | h2
    · rw [combineDenom, h1]; norm_num
    · rw [combineDenom, if_pos h2]
  unfold combineForecasts specCombinePerMonth
  apply List.map_congr_left
  intro d hd
  have hcover : pfilter (fun f => (pfind (fun p => p.date = d) f.2).isSome = true) fs = fs :=
    pfilter_eq_self _ fs (fun f hf => hcov f hf d hd)
  rw [hcover, hden]
  rfl

theorem c3_amended_combiner_formula_witness :
    combineForecasts exC3Full = specCombinePerMonth exC3Full := by
  have hu : unionDates exC3Full = [0] := rfl
  apply c3_amended_combiner_formula
  · have ht : totalWeight exC3Full = 7/10 := by
      norm_num [totalWeight, ensembleWeights, exC3Full]
    refine Or.inr ⟨by rw [ht]; norm_num, ?_⟩
    rw [ht, show |(7:ℚ)/10 - 1| = 3/10 by rw [abs_of_nonpos (by norm_num)]; norm_num]
    norm_num
  · intro f hf d hd
    rw [hu] at hd
    have hd0 : d = 0 := by simpa using hd
    subst hd0
    fin_cases hf <;> rfl

/-! ## Lemmas for the aggregation invariants (C7). -/

theorem pairwise_dates_aggregate (trips : List (ℕ × ℚ)) :
    (aggregateMonthly trips).Pairwise (fun p q => p.date < q.date) := by
  unfold aggregateMonthly
  rw [List.pairwise_map]
  refine (List.pairwise_lt_range (monthSpanLen trips)).imp ?_
  intro a b h
  show minTripMonth trips + a < minTripMonth trips + b
  omega

theorem pfilter_lt_eq_take (c : ℕ) :
    ∀ l : List MPoint, l.Pairwise (fun p q => p.date < q.date) →
      ∃ k, pfilter (fun p => p.date < c) l = l.take k := by
  intro l
  induction l with
  | nil => intro _; exact ⟨0, rfl⟩
  | cons a t ih =>
      intro hp
      rw [List.pairwise_cons] at hp
      by_cases hc : a.date < c
      · obtain ⟨k, hk⟩ := ih hp.2
        exact ⟨k + 1, by simp [pfilter, hc, hk]⟩
      · refine ⟨0, ?_⟩
        have hnil : pfilter (fun p => p.date < c) t = [] := by
          apply pfilter_eq_nil
          intro b hb
          have := hp.1 b hb
          omega
        simp [pfilter, hc, hnil]

theorem baselineTrim_is_take (excl : ℕ) (l : List MPoint)
    (hp : l.Pairwise (fun p q => p.date < q.date)) :
    ∃ k, baselineTrim excl l = l.take k := by
  unfold baselineTrim
  split_ifs
  · exact pfilter_lt_eq_take _ l hp
  · exact ⟨l.length, (List.take_length l).symm⟩
  · exact ⟨l.length, (List.take_length l).symm⟩
  · exact ⟨l.length, (List.take_length l).symm⟩

theorem secondaryTrim_is_take (l : List MPoint) : ∃ k, secondaryTrim l = l.take k := by
  unfold secondaryTrim
  split_ifs
  · exact ⟨l.length - 1, List.dropLast_eq_take l⟩
  · exact ⟨l.length, (List.take_length l).symm⟩
  · exact ⟨l.length, (List.take_length l).symm⟩

theorem getD_aggregateMonthly (trips : List (ℕ × ℚ)) (i : ℕ)
    (h : i < (aggregateMonthly trips).length) :
    (aggregateMonthly trips).getD i default
      = { date := minTripMonth trips + i
          revenue := monthRevenue trips (minTripMonth trips + i)
          tripCount := monthTripCount trips (minTripMonth trips + i) } := by
  have hn : i < monthSpanLen trips := by
    simpa [aggregateMonthly] using h
  simp [aggregateMonthly, List.getD_eq_getElem?_getD, List.getElem?_map,
    List.getElem?_range, hn]

/-- C7: for every ledger (and any forecast-date cutoff and exclusion
window), the aggregated monthly series is contiguous — the i-th point's
month is the earliest trip month plus i — a month of the span with no trips
carries zero revenue and zero trips, and the two-stage trimming
(baseline check then secondary check) returns a prefix of the aggregated
series: the removed months are exactly a consecutive suffix, never an
interior month. -/
theorem c7_contiguous_zero_fill_and_suffix_trim
    (trips : List (ℕ × ℚ)) (cutoff : Option ℕ) (excl : ℕ) :
    (∀ i, i < (untrimmedMonthly trips cutoff).length →
        ((untrimmedMonthly trips cutoff).getD i default).date
          = minTripMonth (completedInRange trips cutoff) + i)
    ∧ (∀ i, i < (untrimmedMonthly trips cutoff).length →
        pfilter (fun t => t.1 = ((untrimmedMonthly trips cutoff).getD i default).date)
            (completedInRange trips cutoff) = [] →
        ((untrimmedMonthly trips cutoff).getD i default).revenue = 0
        ∧ ((untrimmedMonthly trips cutoff).getD i default).tripCount = 0)
    ∧ (∃ k, prepareMonthlyRevenue trips cutoff excl
            = (untrimmedMonthly trips cutoff).take k) := by
  refine ⟨?_, ?_, ?_⟩
  · intro i hi
    rw [untrimmedMonthly, getD_aggregateMonthly _ i (by simpa [untrimmedMonthly] using hi)]
  · intro i hi hfil
    rw [untrimmedMonthly, getD_aggregateMonthly _ i
        (by simpa [untrimmedMonthly] using hi)] at hfil ⊢
    simp only at hfil
    constructor
    · simp only [monthRevenue, hfil]
      rfl
    · simp only [monthTripCount, hfil]
      rfl
  · obtain ⟨k1, hk1⟩ := baselineTrim_is_take excl (untrimmedMonthly trips cutoff)
      (pairwise_dates_aggregate _)
    obtain ⟨k2, hk2⟩ := secondaryTrim_is_take (baselineTrim excl (untrimmedMonthly trips cutoff))
    refine ⟨min k2 k1, ?_⟩
    rw [prepareMonthlyRevenue, hk2, hk1, List.take_take]

theorem c7_contiguous_zero_fill_and_suffix_trim_witness :
    ((untrimmedMonthly [(0, 5), (2, 7)] none).getD 1 default).date = 1
    ∧ ((untrimmedMonthly [(0, 5), (2, 7)] none).getD 1 default).revenue = 0
    ∧ ∃ k, prepareMonthlyRevenue [(0, 5), (2, 7)] none 2
            = (untrimmedMonthly [(0, 5), (2, 7)] none).take k := by
  have h := c7_contiguous_zero_fill_and_suffix_trim [(0, 5), (2, 7)] none 2
  have hl : (untrimmedMonthly [(0, 5), (2, 7)] none).length = 3 := by
    norm_num [untrimmedMonthly, completedInRange, aggregateMonthly, monthSpanLen,
      minTripMonth, maxTripMonth, List.cons_ne_nil]
  have hmin : minTripMonth (completedInRange [(0, 5), (2, 7)] none) = 0 := by
    norm_num [completedInRange, minTripMonth]
  have hd := h.1 1 (by rw [hl]; norm_num)
  rw [hmin] at hd
  refine ⟨by rw [hd], ?_, h.2.2⟩
  have hfil : pfilter (fun t => t.1 = ((untrimmedMonthly [(0, 5), (2, 7)] none).getD 1
      default).date) (completedInRange [(0, 5), (2, 7)] none) = [] := by
    rw [hd]
    norm_num [pfilter, completedInRange]
  exact (h.2.1 1 (by rw [hl]; norm_num) hfil).1

/-! ## Lemmas for the combiner's date union (C6). -/

theorem mem_insertMonth (d : ℕ) : ∀ (l : List ℕ) (a : ℕ),
    a ∈ insertMonth d l ↔ a = d ∨ a ∈ l := by
  intro l a
  induction l with
  | nil => simp [insertMonth]
  | cons b t ih =>
      unfold insertMonth
      split_ifs with h1 h2
      · simp
      · subst h2
        simp only [List.mem_cons]
        tauto
      · simp only [List.mem_cons, ih]
        tauto

theorem pairwise_insertMonth (d : ℕ) : ∀ l : List ℕ, l.Pairwise (· < ·) →
    (insertMonth d l).Pairwise (· < ·) := by
  intro l
  induction l with
  | nil => intro _; simp [insertMonth]
  | cons b t ih =>
      intro h
      rw [List.pairwise_cons] at h
      unfold insertMonth
      split_ifs with h1 h2
      · refine List.Pairwise.cons ?_ (List.Pairwise.cons h.1 h.2)
        intro x hx
        rcases List.mem_cons.mp hx with rfl | hx'
        · exact h1
        · exact lt_trans h1 (h.1 x hx')
      · exact List.Pairwise.cons h.1 h.2
      · refine List.Pairwise.cons ?_ (ih h.2)
        intro x hx
        rcases (mem_insertMonth d t x).mp hx with rfl | hx'
        · omega
        · exact h.1 x hx'

theorem pairwise_foldr_insertMonth (xs : List ℕ) :
    (xs.foldr insertMonth []).Pairwise (· < ·) := by
  induction xs with
  | nil => simp
  | cons a t ih => exact pairwise_insertMonth a _ ih

theorem mem_foldr_insertMonth (xs : List ℕ) (a : ℕ) :
    a ∈ xs.foldr insertMonth [] ↔ a ∈ xs := by
  induction xs with
  | nil => simp
  | cons b t ih => simp [mem_insertMonth, ih]

theorem sorted_lt_ext : ∀ (l1 l2 : List ℕ), l1.Pairwise (· < ·) → l2.Pairwise (· < ·) →
    (∀ a, a ∈ l1 ↔ a ∈ l2) → l1 = l2 := by
  intro l1
  induction l1 with
  | nil =>
      intro l2 _ _ hm
      cases l2 with
      | nil => rfl
      | cons b t => exact absurd ((hm b).mpr (List.mem_cons_self b t)) (by simp)
  | cons a t1 ih =>
      intro l2 h1 h2 hm
      cases l2 with
      | nil => exact absurd ((hm a).mp (List.mem_cons_self a t1)) (by simp)
      | cons b t2 =>
          rw [List.pairwise_cons] at h1 h2
          have hab : a = b := by
            rcases List.mem_cons.mp ((hm a).mp (List.mem_cons_self a t1)) with h | ha2
            · exact h
            · rcases List.mem_cons.mp ((hm b).mpr (List.mem_cons_self b t2)) with h | hb1
              · exact h.symm
              · have hba := h2.1 a ha2
                have hab' := h1.1 b hb1
                omega
          subst hab
          have ht : t1 = t2 := by
            apply ih t2 h1.2 h2.2
            intro x
            constructor
            · intro hx
              rcases List.mem_cons.mp ((hm x).mp (List.mem_cons_of_mem a hx)) with rfl | h
              · exact absurd (h1.1 x hx) (lt_irrefl x)
              · exact h
            · intro hx
              rcases List.mem_cons.mp ((hm x).mpr (List.mem_cons_of_mem a hx)) with rfl | h
              · exact absurd (h2.1 x hx) (lt_irrefl x)
              · exact h
          rw [ht]

theorem unionDates_eq_of_all (fs : List (Method × List FPoint)) (ds : List ℕ)
    (hne : fs ≠ []) (hds : ds.Pairwise (· < ·))
    (hall : ∀ f ∈ fs, f.2.map FPoint.date = ds) :
    unionDates fs = ds := by
  apply sorted_lt_ext _ _ (pairwise_foldr_insertMonth _) hds
  intro a
  rw [mem_foldr_insertMonth]
  constructor
  · intro ha
    rcases List.mem_flatten.mp ha with ⟨l, hl, hal⟩
    rcases List.mem_map.mp hl with ⟨f, hf, rfl⟩
    rw [hall f hf] at hal
    exact hal
  · intro ha
    obtain ⟨f, hf⟩ := List.exists_mem_of_ne_nil fs hne
    exact List.mem_flatten.mpr
      ⟨f.2.map FPoint.date, List.mem_map.mpr ⟨f, hf, rfl⟩, by rw [hall f hf]; exact ha⟩

theorem pairwise_windowDates (s : ℕ) : (windowDates s).Pairwise (· < ·) := by
  unfold windowDates
  rw [List.pairwise_map]
  exact (List.pairwise_lt_range 12).imp (fun h => by omega)

theorem length_windowDates (s : ℕ) : (windowDates s).length = 12 := by
  simp [windowDates]

theorem dates_xgbSeries (L : ℕ) (t : ℚ) :
    (xgbSeries L t).map FPoint.date = windowDates L := by
  rw [xgbSeries, windowDates, List.map_map]
  rfl

theorem dates_pipelineSeries (L : ℕ) (m : ℚ) :
    (pipelineSeries L m).map FPoint.date = windowDates L := by
  rw [pipelineSeries, windowDates, List.map_map]
  rfl

/-! ## Date and length preservation through the Prophet post-processing and
the final sanity pass. -/

theorem dates_map_preserved (g : FPoint → FPoint) (hg : ∀ p, (g p).date = p.date)
    (l : List FPoint) : (l.map g).map FPoint.date = l.map FPoint.date := by
  rw [List.map_map]
  exact List.map_congr_left (fun p _ => hg p)

theorem dates_mapWithIdx (g : ℕ → FPoint → FPoint) (hg : ∀ i p, (g i p).date = p.date) :
    ∀ (i : ℕ) (l : List FPoint),
      (mapWithIdx g i l).map FPoint.date = l.map FPoint.date := by
  intro i l
  induction l generalizing i with
  | nil => rfl
  | cons a t ih => simp [mapWithIdx, hg, ih]

theorem dates_zipWith (g : FPoint → ℚ → FPoint) (hg : ∀ p v, (g p v).date = p.date) :
    ∀ (l : List FPoint) (vs : List ℚ), l.length ≤ vs.length →
      (List.zipWith g l vs).map FPoint.date = l.map FPoint.date := by
  intro l
  induction l with
  | nil => intro vs _; rfl
  | cons a t ih =>
      intro vs hlen
      cases vs with
      | nil => simp at hlen
      | cons v vt =>
          have := ih vt (by simpa using hlen)
          simp [List.zipWith, hg, this]

theorem dates_prophetClean (f : List FPoint) :
    (prophetClean f).map FPoint.date = f.map FPoint.date := by
  simp only [prophetClean]
  split_ifs <;>
    simp [dates_map_preserved, List.map_map]

theorem dates_clipFrame (f : List FPoint) :
    (clipFrame f).map FPoint.date = f.map FPoint.date := by
  refine dates_map_preserved _ ?_ f
  intro p; rfl

theorem length_clipFrame (f : List FPoint) : (clipFrame f).length = f.length :=
  List.length_map f _

theorem dates_dampFrame (r : ℚ) (f : List FPoint) :
    (dampFrame r f).map FPoint.date = f.map FPoint.date := by
  unfold dampFrame
  split_ifs with h
  · refine Eq.trans (dates_map_preserved _ ?_ _) (dates_mapWithIdx _ ?_ 0 f)
    · intro p; rfl
    · intro i p; rfl
  · rfl

theorem length_dampFrame (r : ℚ) (f : List FPoint) : (dampFrame r f).length = f.length := by
  have := congrArg List.length (dates_dampFrame r f)
  simpa using this

theorem dates_capFrame (m : ℚ) (f : List FPoint) :
    (capFrame m f).map FPoint.date = f.map FPoint.date := by
  unfold capFrame
  split_ifs with h
  · refine dates_map_preserved _ ?_ f
    intro p; rfl
  · rfl

theorem length_capFrame (m : ℚ) (f : List FPoint) : (capFrame m f).length = f.length := by
  have := congrArg List.length (dates_capFrame m f)
  simpa using this

theorem dates_prophetVarFrame (rng : NumpyRng) (ambient : ℕ) (cv : ℚ) (f : List FPoint) :
    (prophetVarFrame rng ambient cv f).map FPoint.date = f.map FPoint.date := by
  unfold prophetVarFrame
  split_ifs with h
  · refine dates_zipWith _ ?_ f _ ?_
    · intro p v; rfl
    · rw [List.length_map, rng.len_normalDraws]
  · rfl

theorem dates_prophetBranch (rng : NumpyRng) (ambient : ℕ) (monthly : List MPoint)
    (cv : ℚ) (f : List FPoint) :
    (prophetBranch rng ambient monthly cv f).map FPoint.date = f.map FPoint.date := by
  unfold prophetBranch
  split_ifs with h
  · rfl
  · rw [dates_prophetVarFrame, dates_capFrame, dates_dampFrame, dates_clipFrame]

theorem length_ewm07 : ∀ (prev : ℚ) (xs : List ℚ), (ewm07 prev xs).length = xs.length := by
  intro prev xs
  induction xs generalizing prev with
  | nil => rfl
  | cons x t ih => simp [ewm07, ih]

theorem length_ewmAdjFalse (xs : List ℚ) : (ewmAdjFalse xs).length = xs.length := by
  cases xs with
  | nil => rfl
  | cons x t => simp [ewmAdjFalse, length_ewm07]

theorem dates_ensembleVarFrame (rng : NumpyRng) (ambient : ℕ) (cv : ℚ) (f : List FPoint) :
    (ensembleVarFrame rng ambient cv f).map FPoint.date = f.map FPoint.date := by
  unfold ensembleVarFrame
  split_ifs with h
  · refine dates_zipWith _ ?_ f _ ?_
    · intro p v; rfl
    · rw [List.length_zipWith, length_ewmAdjFalse, List.length_map, List.length_map,
        rng.len_normalDraws]
      omega
  · rfl

theorem length_ensembleVarFrame (rng : NumpyRng) (ambient : ℕ) (cv : ℚ) (f : List FPoint) :
    (ensembleVarFrame rng ambient cv f).length = f.length := by
  have := congrArg List.length (dates_ensembleVarFrame rng ambient cv f)
  simpa using this

theorem length_transitionSmooth (lastM : ℚ) (e : List FPoint) :
    (transitionSmooth lastM e).length = e.length := by
  unfold transitionSmooth
  split_ifs
  · rfl
  · exact length_mapWithIdx _ 0 e
  · rfl

theorem length_postProcessEnsemble (rng : NumpyRng) (ambient : ℕ) (monthly : List MPoint)
    (cv : ℚ) (e : List FPoint) :
    (postProcessEnsemble rng ambient monthly cv e).length = e.length := by
  unfold postProcessEnsemble
  split_ifs
  · rfl
  · rw [length_transitionSmooth, length_ensembleVarFrame, length_capFrame, length_clipFrame]

theorem length_combineForecasts (fs : List (Method × List FPoint)) :
    (combineForecasts fs).length = (unionDates fs).length := by
  unfold combineForecasts
  exact List.length_map _ _

theorem mem_gatherParts (rng : NumpyRng) (ambient L : ℕ) (monthly : List MPoint)
    (prophetRaw : Option (List FPoint)) (xgbOut pipeOut : Option ℚ) (cf : ℚ)
    (f : Method × List FPoint) :
    f ∈ gatherParts rng ambient L monthly prophetRaw xgbOut pipeOut cf
      ↔ (∃ f0, prophetRaw = some f0 ∧ prophetClean f0 ≠ []
            ∧ f = (Method.prophet, prophetBranch rng ambient monthly cf (prophetClean f0)))
        ∨ (∃ tx, xgbOut = some tx ∧ 0 < tx ∧ f = (Method.xgboost, xgbSeries L tx))
        ∨ (∃ tp, pipeOut = some tp
            ∧ f = (Method.pipeline, pipelineSeries L (pipelineMonthlyValue tp monthly))) := by
  cases prophetRaw with
  | none =>
      cases xgbOut with
      | none =>
          cases pipeOut with
          | none => simp [gatherParts]
          | some tp => simp [gatherParts]
      | some tx =>
          cases pipeOut with
          | none =>
              by_cases hx : 0 < tx <;> simp [gatherParts, hx]
          | some tp =>
              by_cases hx : 0 < tx <;> simp [gatherParts, hx]
  | some f0 =>
      by_cases hcl : prophetClean f0 = [] <;>
        cases xgbOut with
        | none =>
            cases pipeOut with
            | none => simp [gatherParts, hcl]
            | some tp => simp [gatherParts, hcl]
        | some tx =>
            cases pipeOut with
            | none => by_cases hx : 0 < tx <;> simp [gatherParts, hcl, hx]
            | some tp => by_cases hx : 0 < tx <;> simp [gatherParts, hcl, hx]

/-- C6 (amended): the ensemble output length equals the number of distinct
months across the successful strategies' frames.  Whenever the pipeline
strategy succeeded (it and the XGBoost series always cover exactly the 12
months from the forecast start date) and the Prophet frame, when present,
covers those same 12 months, the ensemble has exactly 12 monthly points.
The counterexample shows that a Prophet frame whose dates are offset from
the forecast start date makes the output longer than 12. -/
theorem c6_amended_twelve_months_when_aligned
    (rng : NumpyRng) (ambient nowMonth : ℕ) (monthly0 : List MPoint)
    (prophetRaw : Option (List FPoint)) (xgbOut : Option ℚ)
    (t histCvFull histCvRecent : ℚ)
    (hp : ∀ f0, prophetRaw = some f0 →
        f0.map FPoint.date = windowDates (runStartDate nowMonth monthly0)) :
    ∃ s, generate12 rng ambient nowMonth monthly0 prophetRaw xgbOut (some t)
          histCvFull histCvRecent = Except.ok s
      ∧ s.length = 12 := by
  have hall : ∀ f ∈ gatherParts rng ambient (runStartDate nowMonth monthly0)
      (recheckTrim monthly0) prophetRaw xgbOut (some t) histCvFull,
      f.2.map FPoint.date = windowDates (runStartDate nowMonth monthly0) := by
    intro f hf
    rcases (mem_gatherParts rng ambient (runStartDate nowMonth monthly0)
        (recheckTrim monthly0) prophetRaw xgbOut (some t) histCvFull f).mp hf with
      ⟨f0, hpr, hcl, rfl⟩ | ⟨tx, hx, hxpos, rfl⟩ | ⟨tp, hpp, rfl⟩
    · rw [dates_prophetBranch, dates_prophetClean]
      exact hp f0 hpr
    · exact dates_xgbSeries _ _
    · exact dates_pipelineSeries _ _
  have hne : gatherParts rng ambient (runStartDate nowMonth monthly0)
      (recheckTrim monthly0) prophetRaw xgbOut (some t) histCvFull ≠ [] :=
    List.ne_nil_of_mem ((mem_gatherParts rng ambient (runStartDate nowMonth monthly0)
      (recheckTrim monthly0) prophetRaw xgbOut (some t) histCvFull _).mpr
      (Or.inr (Or.inr ⟨t, rfl, rfl⟩)))
  simp only [generate12]
  rw [if_neg hne]
  refine ⟨_, rfl, ?_⟩
  rw [length_postProcessEnsemble, length_combineForecasts,
    unionDates_eq_of_all _ _ hne (pairwise_windowDates _) hall, length_windowDates]

theorem c6_amended_twelve_months_witness :
    ∃ s, generate12 constRng 0 5 [] none none (some 0) 0 0 = Except.ok s
      ∧ s.length = 12 :=
  c6_amended_twelve_months_when_aligned constRng 0 5 [] none none 0 0 0
    (fun f0 h => nomatch h)

/-- C6 counterexample: all three strategies succeed over a two-month
history (forecast start month 2): the XGBoost and pipeline series cover
months 2-13, but the Prophet frame covers months 3-14, as happens when the
trained Prophet history ends one month later than the re-trimmed inference
history.  The run succeeds and the ensemble series has 13 monthly points,
not 12. -/
theorem c6_counterexample_offset_prophet_gives_13 :
    (generate12 constRng 0 0 exC6Monthly (some exC6Prophet) (some 1200) (some 0)
        0 0).toOption.isSome = true
    ∧ ((generate12 constRng 0 0 exC6Monthly (some exC6Prophet) (some 1200) (some 0)
        0 0).toOption.getD []).length = 13 := by
  norm_num [generate12, gatherParts, runStartDate, recheckTrim, takeLast, meanQ,
    prophetClean, clipFrame, dampFrame, capFrame, prophetVarFrame, prophetBranch,
    prophetDamp, medianQ, sortQ, insertLeQ, headFc, maxFc, maxRevenue, recentAvgN,
    maxDateOf, xgbSeries, pipelineSeries, pipelineMonthlyValue, combineForecasts,
    unionDates, insertMonth, valAt, pfind, totalWeight, combineDenom, ensembleWeights,
    postProcessEnsemble, transitionSmooth, ensembleVarFrame, ewmAdjFalse, ewm07,
    clipQ, numpySeed, constRng, recentAvgFor, lastRevenue, smoothPoint, blendWeight,
    mapWithIdx, exC6Monthly, exC6Prophet, List.range_succ, List.cons_ne_nil, abs_zero,
    Except.toOption, List.replicate]

end Jaunty
